import Mathlib

/-!
# Verification of `tools/libmetaflask.py`

A shallow embedding of the metaflask directory loader: the MIME-style record
parser (`read_mime`), the identity resolver (`locate_linked_member`), the
entity model (`Person` / `Member` / `Project` / `ExtensionStatus`) and the
directory model (`MetaView`), together with theorems settling the frozen
claims about the natural-language specification.

Modelling conventions:
* bytes are modelled as `Char` (UTF-8 decoding of header lines and bodies is
  treated as the identity, which is faithful for the ASCII data the format
  uses);
* the SHA-1 digest from `hashlib` is an external collaborator and is kept
  abstract: definitions take a digest function `H : List Char → List Char`
  as a parameter, and `read_mime` records the exact byte sequence fed to the
  running hash (`hashInput`);
* the filesystem is a record of total functions (`FS`); fallible Python
  operations (`open`/`read`, `listdir`) return `Except FileErr`, `readlink`
  returns `Option` (`none` models the `OSError` raised on a non-link);
* Python `dict`s are insertion-ordered association lists with
  overwrite-in-place semantics (`dinsert` / `dget`);
* Python exceptions are the explicit error type `PyErr`
  (`IOError`/`OSError` with an errno class, `ValueError` from the parser,
  `IndexError` from `headers[-1]` on an empty list, `AttributeError` from a
  missing attribute).
-/

/-- Byte strings (one `Char` per byte). -/
abbrev ByteStr := List Char

/-- A header entry: key and value, as produced by the `_kv_re` regex. -/
abbrev KV := ByteStr × ByteStr

/-- Python `str.isspace` / `\s` on the ASCII range: space, TAB, LF, CR, VT, FF. -/
def pySpace (c : Char) : Bool :=
  c.toNat = 32 || c.toNat = 9 || c.toNat = 10 || c.toNat = 13 ||
  c.toNat = 11 || c.toNat = 12

/-- ASCII decimal digit, for the `\d` of `_member_re`. -/
def pyDigit (c : Char) : Bool := 48 ≤ c.toNat && c.toNat ≤ 57

/-- `line.strip()` is empty: every character is whitespace. -/
def blankLine (l : ByteStr) : Bool := l.all pySpace

/-- `line.rstrip('\r\n')`: drop trailing CR and LF characters. -/
def rstripCRLF (l : ByteStr) : ByteStr :=
  (l.reverse.dropWhile (fun c => c = '\r' || c = '\n')).reverse

/-- `s.rstrip()`: drop trailing whitespace. -/
def pyRstrip (l : ByteStr) : ByteStr :=
  (l.reverse.dropWhile pySpace).reverse

/-- `s.lstrip()`: drop leading whitespace. -/
def pyLstrip (l : ByteStr) : ByteStr := l.dropWhile pySpace

/-- Split a line at its first `':'`: `some (before, after)`, or `none` when the
line has no colon.  This is the backbone of the `_kv_re` regex
`^(.*?)\s*:\s*(.*?)$`: the lazy first group makes the regex split at the first
colon of the line. -/
def splitColon : ByteStr → Option (ByteStr × ByteStr)
  | [] => none
  | c :: s =>
    if c = ':' then some ([], s)
    else
      match splitColon s with
      | none => none
      | some (a, b) => some (c :: a, b)

/-- The full `_kv_re` match: split at the first colon, strip the whitespace the
regex's `\s*` groups absorb (trailing whitespace of the key, leading whitespace
of the value).  Leading whitespace of the key and trailing whitespace of the
value survive, exactly as with the lazy groups of the regex. -/
def kvMatch (line : ByteStr) : Option KV :=
  (splitColon line).map (fun p => (pyRstrip p.1, pyLstrip p.2))

/-- `line[:1].isspace()`: true when the line is nonempty and starts with a
whitespace character. -/
def headIsSpace : ByteStr → Bool
  | [] => false
  | c :: _ => pySpace c

/-- Errors raised by `read_mime`: the `ValueError('Invalid mime data')` for a
malformed line, and the `IndexError` from `headers[-1]` when a continuation
line arrives before any header. -/
inductive MimeErr where
  | invalid (msg : ByteStr)
  | indexErr
deriving DecidableEq

/-- The constant message of the `ValueError` raised on malformed mime data. -/
def invalidMimeMsg : ByteStr := "Invalid mime data".toList

/-- Split a byte stream into lines the way repeated `f.readline()` does: each
line keeps its trailing `'\n'`; a final line without a terminator is kept as
is.  Auxiliary: `cur` is the reversed current line. -/
def splitLinesAux : ByteStr → ByteStr → List ByteStr
  | cur, [] => if cur.isEmpty then [] else [cur.reverse]
  | cur, c :: s =>
    if c = '\n' then (c :: cur).reverse :: splitLinesAux [] s
    else splitLinesAux (c :: cur) s

/-- The byte stream as the sequence of lines `f.readline()` yields. -/
def splitLines (s : ByteStr) : List ByteStr := splitLinesAux [] s

/-- The header-section loop of `read_mime`: processes raw lines until a blank
line (or end of stream), accumulating the headers, the exact bytes consumed so
far (`acc`, the bytes fed to the running hash), and returning the unconsumed
lines.

Per line: blank terminates the section; a `_kv_re` match appends a header;
otherwise a line starting with whitespace is joined onto the last header
(`IndexError` when there is none); any other line raises
`ValueError('Invalid mime data')`. -/
def mimeLoop : List KV → ByteStr → List ByteStr →
    Except MimeErr (List KV × ByteStr × List ByteStr)
  | hdrs, acc, [] => .ok (hdrs, acc, [])
  | hdrs, acc, raw :: ls =>
    if blankLine raw then .ok (hdrs, acc ++ raw, ls)
    else
      match kvMatch (rstripCRLF raw) with
      | some kv => mimeLoop (hdrs ++ [kv]) (acc ++ raw) ls
      | none =>
        if headIsSpace (rstripCRLF raw) then
          match hdrs.getLast? with
          | none => .error .indexErr
          | some (k, v) =>
              mimeLoop (hdrs.dropLast ++ [(k, v ++ ' ' :: (rstripCRLF raw).drop 1)])
                (acc ++ raw) ls
        else .error (.invalid invalidMimeMsg)

/-- The result of `read_mime`: ordered headers, raw body payload, and the exact
byte sequence fed to the SHA-1 hash (header bytes in file order, then the
payload). -/
structure MimeData where
  headers : List KV
  payload : ByteStr
  hashInput : ByteStr
deriving DecidableEq

/-- `read_mime(f)`: parse the header section line by line, take the remaining
bytes as payload, and record the hashed bytes.  The Python function returns
`(Headers(headers), payload, h.hexdigest())`; the digest is
`H mime.hashInput` for the (abstract) digest function `H`. -/
def read_mime (s : ByteStr) : Except MimeErr MimeData :=
  match mimeLoop [] [] (splitLines s) with
  | .error e => .error e
  | .ok (hdrs, acc, rest) => .ok ⟨hdrs, rest.flatten, acc ++ rest.flatten⟩

/-! ## Python dicts as insertion-ordered association lists -/

/-- `d[k] = v` on a Python dict: overwrite in place when the key is present,
append otherwise. -/
def dinsert {κ α : Type} [DecidableEq κ] (k : κ) (v : α) :
    List (κ × α) → List (κ × α)
  | [] => [(k, v)]
  | (k', v') :: d => if k' = k then (k, v) :: d else (k', v') :: dinsert k v d

/-- `d.get(k)` on a Python dict: the value at the key, or `none`. -/
def dget {κ α : Type} [DecidableEq κ] (k : κ) : List (κ × α) → Option α
  | [] => none
  | (k', v') :: d => if k' = k then some v' else dget k d

/-! ## Sorting (Python's stable `sort`/`sorted` by an integer key) -/

/-- Insert into a list sorted by an integer key, before the first strictly
larger key (stable insertion). -/
def insertByKey {α : Type} (key : α → Nat) (a : α) : List α → List α
  | [] => [a]
  | x :: xs => if key a ≤ key x then a :: x :: xs else x :: insertByKey key a xs

/-- Stable insertion sort by an integer key; models Python's
`list.sort(key=...)` / `sorted(...)` for the uses in this program. -/
def sortByKey {α : Type} (key : α → Nat) : List α → List α
  | [] => []
  | x :: xs => insertByKey key x (sortByKey key xs)

/-! ## Filesystem model and error types -/

/-- Classification of an `IOError`/`OSError` by errno: `ENOENT` (the only
errno the code inspects), and other errnos such as `EACCES` or `EIO`. -/
inductive FileErr where
  | enoent
  | eacces
  | eio
deriving DecidableEq

/-- Python exceptions the loader can raise. -/
inductive PyErr where
  | io (e : FileErr)
  | mime (e : MimeErr)
  | attributeError
deriving DecidableEq

/-- A snapshot of the filesystem, as the loader observes it: every operation
is a pure function of the path.  `readFile` models `open(path,'rb')` followed
by a full read; `readlink path = none` models the `OSError` that
`os.readlink` raises on a non-link; `pathExists` is `os.path.exists` (which
follows symlinks); `realnorm` is `_normpath = normpath ∘ realpath`. -/
structure FS where
  listdir : String → Except FileErr (List String)
  readFile : String → Except FileErr ByteStr
  readlink : String → Option String
  pathExists : String → Bool
  isdir : String → Bool
  realnorm : String → String

/-- `os.path.join(a, b)` for the shapes used here: `b` wins when absolute. -/
def pyjoin (a b : String) : String :=
  if b.toList.head? = some '/' then b else a ++ "/" ++ b

/-- `os.path.dirname`: everything before the last `'/'` (empty when there is
no slash). -/
def dirname (p : String) : String :=
  if p.toList.contains '/' then
    String.mk (((p.toList.reverse.dropWhile (fun c => c ≠ '/')).drop 1).reverse)
  else ""

/-! ## Entity model -/

/-- Lower-case an ASCII letter code point, for case-insensitive header keys. -/
def lowerNat (n : Nat) : Nat := if 65 ≤ n ∧ n ≤ 90 then n + 32 else n

/-- Case-insensitive key normalization used by the `Headers` container. -/
def keyFold (k : ByteStr) : List Nat := k.map (fun c => lowerNat c.toNat)

/-- `Headers.get(key)`: first header whose key matches case-insensitively. -/
def hget (k : ByteStr) (hs : List KV) : Option ByteStr :=
  (hs.find? (fun p => keyFold p.1 == keyFold k)).map (fun p => p.2)

/-- The state `Person.__init__` stores: normalized path, parsed headers, the
hex digest of the hashed bytes, and the body decoded with trailing whitespace
stripped (`description`). -/
structure PersonData where
  path : String
  headers : List KV
  checksum : ByteStr
  description : ByteStr
deriving DecidableEq

/-- `Person.name` -/
def personName (p : PersonData) : Option ByteStr := hget "name".toList p.headers

/-- `Person.twitter` -/
def personTwitter (p : PersonData) : Option ByteStr := hget "twitter".toList p.headers

/-- `Person.email` (header key `e-mail`, matched case-insensitively) -/
def personEmail (p : PersonData) : Option ByteStr := hget "e-mail".toList p.headers

/-- `Person.__init__(metaview, path, f)` over file content `bytes`:
`self.path = _normpath(join(metaview.member_path, path))`, then `read_mime`,
then `description = payload.decode().rstrip()`.  `H` is the digest function
of the running hash. -/
def mkPersonData (H : ByteStr → ByteStr) (fs : FS) (memberPath pathArg : String)
    (bytes : ByteStr) : Except MimeErr PersonData :=
  match read_mime bytes with
  | .error e => .error e
  | .ok m =>
      .ok ⟨fs.realnorm (pyjoin memberPath pathArg), m.headers, H m.hashInput,
        pyRstrip m.payload⟩

/-- A `Member` is a `Person` plus the sequence number and login parsed from
the filename. -/
structure MemberData extends PersonData where
  num : Nat
  login : ByteStr
deriving DecidableEq

/-- A runtime person object: either a plain `Person` (which has no `num` or
`login` attribute) or a `Member`. -/
inductive PObj where
  | plain (p : PersonData)
  | member (m : MemberData)
deriving DecidableEq

/-- Attribute lookup `self.num`: a plain `Person` raises `AttributeError`. -/
def pobjNum : PObj → Except PyErr Nat
  | .plain _ => .error .attributeError
  | .member m => .ok m.num

/-- Attribute lookup `self.login`: a plain `Person` raises `AttributeError`. -/
def pobjLogin : PObj → Except PyErr ByteStr
  | .plain _ => .error .attributeError
  | .member m => .ok m.login

/-- The `PersonData` underlying either kind of person object. -/
def pobjPerson : PObj → PersonData
  | .plain p => p
  | .member m => m.toPersonData

/-- `_member_re = ^(\d{4})_(.*?).txt$` applied to a filename: four ASCII
digits, an underscore, then a login slug, one arbitrary character (the
unescaped dot of the regex) and the literal `txt` at the end.  `.` does not
match a newline.  Returns `int(num)` and the login. -/
def parseMemberName (name : String) : Option (Nat × ByteStr) :=
  match name.toList with
  | d1 :: d2 :: d3 :: d4 :: '_' :: rest =>
    if pyDigit d1 && pyDigit d2 && pyDigit d3 && pyDigit d4 then
      match rest.reverse with
      | 't' :: 'x' :: 't' :: c :: loginRev =>
        if c ≠ '\n' && loginRev.all (fun ch => ch ≠ '\n') then
          some ((((d1.toNat - 48) * 10 + (d2.toNat - 48)) * 10 +
                  (d3.toNat - 48)) * 10 + (d4.toNat - 48),
                loginRev.reverse)
        else none
      | _ => none
    else none
  | _ => none

/-- The body of the `read_members` loop over the directory listing: filenames
not matching `_member_re` are skipped; a matching file is opened, parsed and
appended; the first error aborts. -/
def readMembersLoop (H : ByteStr → ByteStr) (fs : FS) (memberPath : String) :
    List String → List MemberData → Except PyErr (List MemberData)
  | [], acc => .ok acc
  | fname :: files, acc =>
    match parseMemberName fname with
    | none => readMembersLoop H fs memberPath files acc
    | some (num, login) =>
      match fs.readFile (pyjoin memberPath fname) with
      | .error e => .error (.io e)
      | .ok bytes =>
        match mkPersonData H fs memberPath fname bytes with
        | .error e => .error (.mime e)
        | .ok pd => readMembersLoop H fs memberPath files (acc ++ [⟨pd, num, login⟩])

/-- `read_members(metaview)`: list the member directory, parse every filename
matching `_member_re` into a `Member` (ignoring the rest), then sort the
result by ascending `num`.  File and parse errors propagate. -/
def read_members (H : ByteStr → ByteStr) (fs : FS) (memberPath : String) :
    Except PyErr (List MemberData) :=
  match fs.listdir memberPath with
  | .error e => .error (.io e)
  | .ok files =>
    match readMembersLoop H fs memberPath files [] with
    | .error e => .error e
    | .ok mems => .ok (sortByKey MemberData.num mems)

/-- `read_projects(metaview)`: list the projects directory; every entry that
is a directory and does not start with `'.'` becomes a project short name. -/
def read_projects (fs : FS) (projectsPath : String) :
    Except PyErr (List String) :=
  match fs.listdir projectsPath with
  | .error e => .error (.io e)
  | .ok files =>
    .ok (files.filter (fun f =>
      f.toList.head? ≠ some '.' && fs.isdir (pyjoin projectsPath f)))

/-- The state `MetaView.__init__` builds: the four member indices and the
project dict.  `members` mirrors the `read_members` list the constructor
iterates (Python drops the list itself after the loop; it is kept here to
quantify over "every Member constructed into the model"). -/
structure MetaViewS where
  root : String
  members : List MemberData
  by_num : List (Nat × MemberData)
  by_login : List (ByteStr × MemberData)
  by_checksum : List (ByteStr × MemberData)
  by_path : List (String × MemberData)
  projects : List (String × String)
deriving DecidableEq

instance : Inhabited MetaViewS := ⟨⟨"", [], [], [], [], [], []⟩⟩

/-- `MetaView.member_path` -/
def memberPathOf (mv : MetaViewS) : String := pyjoin mv.root "members"

/-- `MetaView.projects_path` -/
def projectsPathOf (mv : MetaViewS) : String := pyjoin mv.root "projects"

/-- `MetaView.__init__(path)`: read the members, fill the four indices in
iteration order (each a Python dict, so a duplicate `num`/`login`/checksum/
path overwrites in place), then read the projects into a dict keyed by short
name. -/
def mkMetaView (H : ByteStr → ByteStr) (fs : FS) (root : String) :
    Except PyErr MetaViewS :=
  match read_members H fs (pyjoin root "members") with
  | .error e => .error e
  | .ok mems =>
    match read_projects fs (pyjoin root "projects") with
    | .error e => .error e
    | .ok pnames =>
      .ok ⟨root, mems,
        mems.foldl (fun d m => dinsert m.num m d) [],
        mems.foldl (fun d m => dinsert m.login m d) [],
        mems.foldl (fun d m => dinsert m.checksum m d) [],
        mems.foldl (fun d m => dinsert m.path m d) [],
        pnames.foldl (fun d n => dinsert n n d) []⟩

/-- `MetaView.iter_members()`: the by-num dict items sorted by key, values
only. -/
def iter_members (mv : MetaViewS) : List MemberData :=
  (sortByKey Prod.fst mv.by_num).map Prod.snd

/-- `MetaView.iter_projects()`: the project dict values in insertion order. -/
def iter_projects (mv : MetaViewS) : List String :=
  mv.projects.map Prod.snd

/-- `MetaView.locate_linked_member(path)`: tier 1 — if the path is a symlink,
canonicalize its target relative to the link's directory and look it up in
the by-path index; tier 2 — otherwise (or on a tier-1 miss) open the
canonicalized path, hash its raw bytes and look the digest up in the
by-checksum index.  Every filesystem error along the way yields `none`. -/
def locate_linked_member (H : ByteStr → ByteStr) (fs : FS) (mv : MetaViewS)
    (path : String) : Option MemberData :=
  let tier1 : Option MemberData :=
    match fs.readlink path with
    | none => none
    | some target => dget (fs.realnorm (pyjoin (dirname path) target)) mv.by_path
  match tier1 with
  | some m => some m
  | none =>
    match fs.readFile (fs.realnorm path) with
    | .error _ => none
    | .ok bytes => dget (H bytes) mv.by_checksum

/-- `Member.sponsor`: the `sponsor` header looked up in the by-login index,
unless the header is absent, empty, or the literal sentinel `<self>`. -/
def memberSponsor (mv : MetaViewS) (m : MemberData) : Option MemberData :=
  match hget "sponsor".toList m.headers with
  | none => none
  | some v =>
    if v = [] ∨ v = "<self>".toList then none
    else dget v mv.by_login

/-! ## Project accessors -/

/-- `ExtensionStatus`: just the parsed headers. -/
structure ExtStatus where
  headers : List KV
deriving DecidableEq

/-- `ExtensionStatus.is_approved`: the `approved` header equals `yes`. -/
def extIsApproved (e : ExtStatus) : Bool :=
  hget "approved".toList e.headers = some "yes".toList

/-- `Project.path` -/
def projPath (mv : MetaViewS) (sname : String) : String :=
  pyjoin (projectsPathOf mv) sname

/-- `Project.meta`: parse `META`; a missing file (`ENOENT`) yields empty
headers; any other `IOError` is re-raised; parse errors propagate. -/
def projMeta (fs : FS) (mv : MetaViewS) (sname : String) :
    Except PyErr (List KV) :=
  match fs.readFile (pyjoin (projPath mv sname) "META") with
  | .ok bytes =>
    match read_mime bytes with
    | .ok m => .ok m.headers
    | .error e => .error (.mime e)
  | .error .enoent => .ok []
  | .error e => .error (.io e)

/-- `Project.readme`: first of `README.rst`, `README.md`, `README` that can
be read, trailing whitespace stripped; every `IOError` is swallowed and the
next candidate tried. -/
def projReadme (fs : FS) (mv : MetaViewS) (sname : String) : Option ByteStr :=
  ["README.rst", "README.md", "README"].findSome? (fun choice =>
    match fs.readFile (pyjoin (projPath mv sname) choice) with
    | .ok bytes => some (pyRstrip bytes)
    | .error _ => none)

/-- `Project.extension_status`: parse `EXTENSION_STATUS`; every `IOError` is
swallowed (yielding `none`), but a parse error (`ValueError`) propagates. -/
def projExtStatus (fs : FS) (mv : MetaViewS) (sname : String) :
    Except PyErr (Option ExtStatus) :=
  match fs.readFile (pyjoin (projPath mv sname) "EXTENSION_STATUS") with
  | .ok bytes =>
    match read_mime bytes with
    | .ok m => .ok (some ⟨m.headers⟩)
    | .error e => .error (.mime e)
  | .error _ => .ok none

/-- `Project.is_extension` -/
def projIsExtension (fs : FS) (mv : MetaViewS) (sname : String) :
    Except PyErr Bool :=
  (projExtStatus fs mv sname).map Option.isSome

/-- `Project.project_lead`: `None` when `os.path.exists` fails; otherwise the
identity resolver's answer; when the resolver finds nothing, the file is
opened and wrapped as a plain inline `Person` (errors while opening or
parsing it propagate). -/
def projLead (H : ByteStr → ByteStr) (fs : FS) (mv : MetaViewS)
    (sname : String) : Except PyErr (Option PObj) :=
  let p := pyjoin (projPath mv sname) "PROJECT_LEAD"
  if fs.pathExists p then
    match locate_linked_member H fs mv p with
    | some m => .ok (some (.member m))
    | none =>
      match fs.readFile p with
      | .error e => .error (.io e)
      | .ok bytes =>
        match mkPersonData H fs (memberPathOf mv) p bytes with
        | .ok pd => .ok (some (.plain pd))
        | .error e => .error (.mime e)
  else .ok none

/-- `Project.stewards`: every entry of the `stewardship` directory the
identity resolver can match; unresolved entries are dropped; a missing or
unreadable directory yields the empty tuple. -/
def projStewards (H : ByteStr → ByteStr) (fs : FS) (mv : MetaViewS)
    (sname : String) : List MemberData :=
  match fs.listdir (pyjoin (projPath mv sname) "stewardship") with
  | .error _ => []
  | .ok files => files.filterMap (fun f =>
      locate_linked_member H fs mv (pyjoin (pyjoin (projPath mv sname) "stewardship") f))

/-! ## JSON projections -/

/-- The JSON values the snapshot is built from. -/
inductive Json where
  | null
  | str (s : ByteStr)
  | num (n : Nat)
  | bool (b : Bool)
  | arr (xs : List Json)
  | obj (fields : List (String × Json))

/-- An optional string as a JSON value. -/
def jopt : Option ByteStr → Json
  | none => .null
  | some s => .str s

/-- `Person.to_json`: reads `self.num` and `self.login` first (the dict
literal evaluates its values in order), so a plain `Person` raises
`AttributeError`; the `compact` flag is ignored. -/
def personToJson (o : PObj) (_compact : Bool) : Except PyErr Json :=
  match pobjNum o with
  | .error e => .error e
  | .ok n =>
    match pobjLogin o with
    | .error e => .error e
    | .ok l =>
      .ok (.obj [("num", .num n), ("login", .str l),
        ("name", jopt (personName (pobjPerson o))),
        ("twitter", jopt (personTwitter (pobjPerson o))),
        ("email", jopt (personEmail (pobjPerson o))),
        ("description", .str (pobjPerson o).description)])

/-- `Member.to_json`: compact is `{num, login, name}`; full is
`Person.to_json` plus a `sponsor` key holding the sponsor's compact form (or
`null`). -/
def memberToJson (mv : MetaViewS) (m : MemberData) (compact : Bool) :
    Except PyErr Json :=
  if compact then
    .ok (.obj [("num", .num m.num), ("login", .str m.login),
      ("name", jopt (personName m.toPersonData))])
  else
    match personToJson (.member m) compact with
    | .error e => .error e
    | .ok (.obj fields) =>
      match memberSponsor mv m with
      | none => .ok (.obj (fields ++ [("sponsor", Json.null)]))
      | some s =>
        .ok (.obj (fields ++ [("sponsor",
          Json.obj [("num", .num s.num), ("login", .str s.login),
            ("name", jopt (personName s.toPersonData))])]))
    | .ok j => .ok j

/-- Dynamic dispatch of `.to_json(compact=True)` on a lead object: a `Member`
uses `Member.to_json`, a plain `Person` uses `Person.to_json` (which ignores
`compact` and raises `AttributeError`). -/
def pobjToJson (mv : MetaViewS) (o : PObj) (compact : Bool) :
    Except PyErr Json :=
  match o with
  | .member m => memberToJson mv m compact
  | .plain p => personToJson (.plain p) compact

/-- `ExtensionStatus.to_json` -/
def extToJson (e : ExtStatus) : Json := .obj [("is_approved", .bool (extIsApproved e))]

/-- `Project.to_json`: the dict literal, with values evaluated in declaration
order, so the first failing accessor decides the raised error. -/
def projToJson (H : ByteStr → ByteStr) (fs : FS) (mv : MetaViewS)
    (sname : String) : Except PyErr Json :=
  match projMeta fs mv sname with
  | .error e => .error e
  | .ok meta =>
  let readme := projReadme fs mv sname
  match projExtStatus fs mv sname with
  | .error e => .error e
  | .ok ext =>
  match projLead H fs mv sname with
  | .error e => .error e
  | .ok leadOpt =>
  match (match leadOpt with
         | none => Except.ok Json.null
         | some o => pobjToJson mv o true) with
  | .error e => .error e
  | .ok leadJson =>
  let stewards := projStewards H fs mv sname
  let stewardJsons := stewards.map (fun m =>
    Json.obj [("num", .num m.num), ("login", .str m.login),
      ("name", jopt (personName m.toPersonData))])
  .ok (.obj [("short_name", .str sname.toList),
    ("name", jopt (hget "name".toList meta)),
    ("website", jopt (hget "website".toList meta)),
    ("github", jopt (hget "github".toList meta)),
    ("bugtracker", jopt (hget "bugtracker".toList meta)),
    ("documentation", jopt (hget "documentation".toList meta)),
    ("pypi", jopt (hget "pypi".toList meta)),
    ("license", jopt (hget "license".toList meta)),
    ("status", jopt (hget "status".toList meta)),
    ("readme", jopt readme),
    ("extension_status", match ext with
      | none => Json.null
      | some e => extToJson e),
    ("is_extension", .bool ext.isSome),
    ("project_lead", leadJson),
    ("stewards", .arr stewardJsons)])

/-- `List.mapM` over `Except`, written as an explicit recursion. -/
def mapExcept {ε α β : Type} (f : α → Except ε β) : List α → Except ε (List β)
  | [] => .ok []
  | a :: as =>
    match f a with
    | .error e => .error e
    | .ok b =>
      match mapExcept f as with
      | .error e => .error e
      | .ok bs => .ok (b :: bs)

/-- `MetaView.to_json`: members (full form, ascending `num`) then projects
(dict order). -/
def metaViewToJson (H : ByteStr → ByteStr) (fs : FS) (mv : MetaViewS) :
    Except PyErr Json :=
  match mapExcept (fun m => memberToJson mv m false) (iter_members mv) with
  | .error e => .error e
  | .ok members =>
    match mapExcept (fun s => projToJson H fs mv s) (iter_projects mv) with
    | .error e => .error e
    | .ok projects =>
      .ok (.obj [("members", .arr members), ("projects", .arr projects)])

/-! ## Parser lemmas -/

theorem splitLinesAux_flatten (s : ByteStr) :
    ∀ cur, (splitLinesAux cur s).flatten = cur.reverse ++ s := by
  induction s with
  | nil =>
    intro cur
    by_cases h : cur.isEmpty
    · simp [splitLinesAux, h, List.isEmpty_iff.mp h]
    · simp [splitLinesAux, h]
  | cons c rest ih =>
    intro cur
    by_cases h : c = '\n'
    · simp [splitLinesAux, h, ih]
    · simp [splitLinesAux, h, ih]

theorem splitLines_flatten (s : ByteStr) : (splitLines s).flatten = s := by
  simpa using splitLinesAux_flatten s []

theorem mimeLoop_flatten :
    ∀ (lls : List ByteStr) (hdrs : List KV) (acc : ByteStr)
      (h : List KV) (a : ByteStr) (rest : List ByteStr),
    mimeLoop hdrs acc lls = .ok (h, a, rest) →
    a ++ rest.flatten = acc ++ lls.flatten := by
  intro lls
  induction lls with
  | nil =>
    intro hdrs acc h a rest heq
    simp [mimeLoop] at heq
    obtain ⟨-, h2, h3⟩ := heq
    simp [← h2, ← h3]
  | cons raw ls ih =>
    intro hdrs acc h a rest heq
    simp only [mimeLoop] at heq
    by_cases hb : blankLine raw
    · simp only [hb, if_pos rfl] at heq
      simp at heq
      obtain ⟨-, h2, h3⟩ := heq
      simp [← h2, ← h3]
    · rw [if_neg hb] at heq
      cases hkv : kvMatch (rstripCRLF raw) with
      | some kv =>
        rw [hkv] at heq
        have := ih _ _ _ _ _ heq
        simpa using this
      | none =>
        rw [hkv] at heq
        by_cases hs : headIsSpace (rstripCRLF raw)
        · simp only [hs, if_pos rfl] at heq
          cases hl : hdrs.getLast? with
          | none => rw [hl] at heq; cases heq
          | some kv =>
            rw [hl] at heq
            have := ih _ _ _ _ _ heq
            simpa using this
        · rw [if_neg hs] at heq
          cases heq

/-- The bytes fed to the running SHA-1 hash of `read_mime` are exactly the
file's byte content: every header byte (line terminators and the blank
terminator line included) followed by the raw body bytes. -/
theorem read_mime_hashInput (s : ByteStr) (m : MimeData)
    (h : read_mime s = .ok m) : m.hashInput = s := by
  unfold read_mime at h
  cases hml : mimeLoop [] [] (splitLines s) with
  | error e => rw [hml] at h; cases h
  | ok t =>
    obtain ⟨hdrs, acc, rest⟩ := t
    rw [hml] at h
    simp at h
    have := mimeLoop_flatten (splitLines s) [] [] hdrs acc rest hml
    rw [splitLines_flatten] at this
    simp at this
    rw [← h]
    simpa using this

theorem splitColon_of_not_mem (post : ByteStr) :
    ∀ pre : ByteStr, ':' ∉ pre →
    splitColon (pre ++ ':' :: post) = some (pre, post) := by
  intro pre
  induction pre with
  | nil => intro _; simp [splitColon]
  | cons c cs ih =>
    intro hmem
    have hc : c ≠ ':' := by
      intro hcc; exact hmem (by simp [hcc])
    have hcs : ':' ∉ cs := fun hm => hmem (List.mem_cons_of_mem _ hm)
    simp [splitColon, hc, ih hcs]

theorem splitColon_none (l : ByteStr) (hmem : ':' ∉ l) : splitColon l = none := by
  induction l with
  | nil => simp [splitColon]
  | cons c cs ih =>
    have hc : c ≠ ':' := by
      intro hcc; exact hmem (by simp [hcc])
    have hcs : ':' ∉ cs := fun hm => hmem (List.mem_cons_of_mem _ hm)
    simp [splitColon, hc, ih hcs]

/-! ## Dict lemmas -/

theorem dget_dinsert_self {κ α : Type} [DecidableEq κ] (k : κ) (v : α)
    (d : List (κ × α)) : dget k (dinsert k v d) = some v := by
  induction d with
  | nil => simp [dinsert, dget]
  | cons p d ih =>
    obtain ⟨k', v'⟩ := p
    by_cases h : k' = k
    · simp [dinsert, dget, h]
    · simp [dinsert, dget, h, ih]


theorem dget_dinsert_ne {κ α : Type} [DecidableEq κ] (k k' : κ) (v : α)
    (hne : k' ≠ k) : ∀ d : List (κ × α),
    dget k' (dinsert k v d) = dget k' d := by
  intro d
  induction d with
  | nil => simp [dinsert, dget, Ne.symm hne]
  | cons p d ih =>
    obtain ⟨k'', v''⟩ := p
    by_cases h : k'' = k
    · subst h
      simp [dinsert, dget, Ne.symm hne]
    · by_cases h2 : k'' = k'
      · subst h2
        simp [dinsert, dget, h]
      · simp [dinsert, dget, h, h2, ih]

theorem keys_dinsert_cases {κ α : Type} [DecidableEq κ] (k : κ) (v : α) :
    ∀ (d : List (κ × α)) (x : κ), x ∈ (dinsert k v d).map Prod.fst →
    x = k ∨ x ∈ d.map Prod.fst := by
  intro d
  induction d with
  | nil =>
    intro x hx
    left
    simpa [dinsert] using hx
  | cons p d ih =>
    obtain ⟨k', v'⟩ := p
    intro x hx
    by_cases h : k' = k
    · subst h
      have hrw : dinsert k' v ((k', v') :: d) = (k', v) :: d := by simp [dinsert]
      rw [hrw, List.map_cons] at hx
      rcases List.mem_cons.mp hx with h1 | h2
      · exact Or.inl h1
      · right
        rw [List.map_cons]
        exact List.mem_cons_of_mem _ h2
    · have hrw : dinsert k v ((k', v') :: d) = (k', v') :: dinsert k v d := by
        simp [dinsert, h]
      rw [hrw, List.map_cons] at hx
      rcases List.mem_cons.mp hx with h1 | h2
      · right
        rw [List.map_cons, h1]
        exact List.mem_cons_self _ _
      · rcases ih x h2 with h3 | h4
        · exact Or.inl h3
        · right
          rw [List.map_cons]
          exact List.mem_cons_of_mem _ h4

/-- Key-distinctness is preserved by a dict insertion. -/
theorem nodup_keys_dinsert {κ α : Type} [DecidableEq κ] (k : κ) (v : α) :
    ∀ d : List (κ × α), (d.map Prod.fst).Nodup →
    ((dinsert k v d).map Prod.fst).Nodup := by
  intro d
  induction d with
  | nil => intro _; simp [dinsert]
  | cons p d ih =>
    obtain ⟨k', v'⟩ := p
    intro hnd
    simp only [List.map_cons, List.nodup_cons] at hnd
    obtain ⟨hk', hd⟩ := hnd
    by_cases h : k' = k
    · subst h
      have hrw : dinsert k' v ((k', v') :: d) = (k', v) :: d := by simp [dinsert]
      rw [hrw, List.map_cons]
      exact List.nodup_cons.mpr ⟨hk', hd⟩
    · have hrw : dinsert k v ((k', v') :: d) = (k', v') :: dinsert k v d := by
        simp [dinsert, h]
      rw [hrw, List.map_cons]
      refine List.nodup_cons.mpr ⟨?_, ih hd⟩
      intro hmem
      rcases keys_dinsert_cases k v d k' hmem with h1 | h2
      · exact h h1
      · exact hk' h2

/-- The keys of a dict built by an insertion fold from the empty dict are
pairwise distinct. -/
theorem nodup_keys_fold {κ α : Type} [DecidableEq κ] (f : α → κ)
    (l : List α) :
    ((l.foldl (fun d x => dinsert (f x) x d) []).map Prod.fst).Nodup := by
  suffices h : ∀ d₀ : List (κ × α), (d₀.map Prod.fst).Nodup →
      ((l.foldl (fun d x => dinsert (f x) x d) d₀).map Prod.fst).Nodup by
    exact h [] (by simp)
  induction l with
  | nil => intro d₀ h; simpa using h
  | cons x xs ih =>
    intro d₀ h
    simp only [List.foldl_cons]
    exact ih _ (nodup_keys_dinsert _ _ _ h)

/-- Folding `d[key x] = x` over a list whose keys avoid `k` leaves `dget k`
unchanged. -/
theorem dget_fold_of_not_mem {κ α : Type} [DecidableEq κ] (f : α → κ) (k : κ) :
    ∀ (l : List α) (d₀ : List (κ × α)), (∀ x ∈ l, f x ≠ k) →
    dget k (l.foldl (fun d x => dinsert (f x) x d) d₀) = dget k d₀ := by
  intro l
  induction l with
  | nil => intro d₀ _; simp
  | cons x xs ih =>
    intro d₀ hk
    have h1 : f x ≠ k := hk x (by simp)
    have h2 : ∀ y ∈ xs, f y ≠ k := fun y hy => hk y (List.mem_cons_of_mem _ hy)
    simp only [List.foldl_cons]
    rw [ih _ h2, dget_dinsert_ne _ _ _ (Ne.symm h1)]

/-- When the keys of `l` are pairwise distinct, every element of `l` is found
in the dict built by the insertion fold, whatever the starting dict. -/
theorem dget_fold_self {κ α : Type} [DecidableEq κ] (f : α → κ) :
    ∀ (l : List α) (d₀ : List (κ × α)), (l.map f).Nodup → ∀ m ∈ l,
    dget (f m) (l.foldl (fun d x => dinsert (f x) x d) d₀) = some m := by
  intro l
  induction l with
  | nil => intro d₀ _ m hm; cases hm
  | cons x xs ih =>
    intro d₀ hnd m hm
    simp only [List.map_cons, List.nodup_cons] at hnd
    obtain ⟨hx, hxs⟩ := hnd
    rcases List.mem_cons.mp hm with hmx | hmxs
    · subst hmx
      have hne : ∀ y ∈ xs, f y ≠ f m := by
        intro y hy hEq
        exact hx (hEq ▸ List.mem_map_of_mem f hy)
      simp only [List.foldl_cons]
      rw [dget_fold_of_not_mem f (f m) xs _ hne, dget_dinsert_self]
    · simp only [List.foldl_cons]
      exact ih _ hxs m hmxs

/-! ## Sorting lemmas -/

theorem insertByKey_perm {α : Type} (key : α → Nat) (a : α) :
    ∀ l : List α, (insertByKey key a l).Perm (a :: l) := by
  intro l
  induction l with
  | nil => simp [insertByKey]
  | cons x xs ih =>
    by_cases h : key a ≤ key x
    · simp [insertByKey, h]
    · simp only [insertByKey, if_neg h]
      exact List.Perm.trans (List.Perm.cons x ih) (List.Perm.swap a x xs)

theorem sortByKey_perm {α : Type} (key : α → Nat) :
    ∀ l : List α, (sortByKey key l).Perm l := by
  intro l
  induction l with
  | nil => simp [sortByKey]
  | cons x xs ih =>
    simp only [sortByKey]
    exact List.Perm.trans (insertByKey_perm key x _) (List.Perm.cons x ih)

theorem insertByKey_pairwise {α : Type} (key : α → Nat) (a : α) :
    ∀ l : List α, l.Pairwise (fun p q => key p ≤ key q) →
    (insertByKey key a l).Pairwise (fun p q => key p ≤ key q) := by
  intro l
  induction l with
  | nil => intro _; simp [insertByKey]
  | cons x xs ih =>
    intro hp
    rcases List.pairwise_cons.mp hp with ⟨hx, hxs⟩
    by_cases h : key a ≤ key x
    · simp only [insertByKey, if_pos h]
      refine List.pairwise_cons.mpr ⟨?_, hp⟩
      intro b hb
      rcases List.mem_cons.mp hb with h1 | h2
      · exact h1 ▸ h
      · exact le_trans h (hx b h2)
    · simp only [insertByKey, if_neg h]
      refine List.pairwise_cons.mpr ⟨?_, ih hxs⟩
      intro b hb
      rcases (insertByKey_perm key a xs).mem_iff.mp hb with h1
      rcases List.mem_cons.mp h1 with h2 | h3
      · exact h2 ▸ le_of_not_le h
      · exact hx b h3

theorem sortByKey_pairwise {α : Type} (key : α → Nat) :
    ∀ l : List α, (sortByKey key l).Pairwise (fun p q => key p ≤ key q) := by
  intro l
  induction l with
  | nil => simp [sortByKey]
  | cons x xs ih =>
    simp only [sortByKey]
    exact insertByKey_pairwise key x _ ih

/-- A list sorted by key whose keys are pairwise distinct is strictly
sorted by key. -/
theorem pairwise_lt_of_le_nodup {α : Type} (key : α → Nat) (l : List α)
    (hle : l.Pairwise (fun p q => key p ≤ key q))
    (hnd : (l.map key).Nodup) :
    l.Pairwise (fun p q => key p < key q) := by
  have hne : l.Pairwise (fun p q => key p ≠ key q) :=
    (List.pairwise_map.mp hnd)
  have := List.Pairwise.and hle hne
  exact this.imp (fun h => lt_of_le_of_ne h.1 h.2)

/-! ## MetaView construction inversion -/

theorem mkMetaView_inv (H : ByteStr → ByteStr) (fs : FS) (root : String)
    (mv : MetaViewS) (h : mkMetaView H fs root = .ok mv) :
    mv.by_num = mv.members.foldl (fun d m => dinsert m.num m d) [] ∧
    mv.by_login = mv.members.foldl (fun d m => dinsert m.login m d) [] ∧
    mv.by_checksum = mv.members.foldl (fun d m => dinsert m.checksum m d) [] ∧
    mv.by_path = mv.members.foldl (fun d m => dinsert m.path m d) [] ∧
    read_members H fs (pyjoin root "members") = .ok mv.members := by
  unfold mkMetaView at h
  cases h1 : read_members H fs (pyjoin root "members") with
  | error e => rw [h1] at h; cases h
  | ok mems =>
    rw [h1] at h
    cases h2 : read_projects fs (pyjoin root "projects") with
    | error e => rw [h2] at h; cases h
    | ok pnames =>
      rw [h2] at h
      simp at h
      subst h
      exact ⟨rfl, rfl, rfl, rfl, rfl⟩

/-! ## Concrete filesystem fixtures for witnesses and counterexamples -/

/-- The identity digest, a concrete instantiation of the abstract SHA-1. -/
def idDigest : ByteStr → ByteStr := fun b => b

/-- A default member record, used only to extract elements of concrete lists. -/
def defaultMember : MemberData := ⟨⟨"", [], [], []⟩, 0, []⟩

/-- The member file of the concrete scenario of the spec's §8. -/
def aliceBytes : ByteStr := "Name: Alice\nE-mail: a@x.com\n\nHello.".toList

/-- A member whose `Sponsor` header equals its own login. -/
def bobBytes : ByteStr := "Name: Bob\nSponsor: bob\n\nB".toList

/-- Fixture: a tree with the single member file `0001_alice.txt`. -/
def fsC9 : FS where
  listdir := fun p =>
    if p = "r/members" then .ok ["0001_alice.txt"]
    else if p = "r/projects" then .ok []
    else .error .enoent
  readFile := fun p =>
    if p = "r/members/0001_alice.txt" then .ok aliceBytes
    else .error .enoent
  readlink := fun _ => none
  pathExists := fun _ => false
  isdir := fun _ => false
  realnorm := fun p => p

/-- Fixture: members `0001_alice.txt` (no sponsor header) and `0002_bob.txt`
(sponsor header equal to its own login), listed in descending order. -/
def fsAB : FS where
  listdir := fun p =>
    if p = "r/members" then .ok ["0002_bob.txt", "0001_alice.txt"]
    else if p = "r/projects" then .ok []
    else .error .enoent
  readFile := fun p =>
    if p = "r/members/0001_alice.txt" then .ok aliceBytes
    else if p = "r/members/0002_bob.txt" then .ok bobBytes
    else .error .enoent
  readlink := fun _ => none
  pathExists := fun _ => false
  isdir := fun _ => false
  realnorm := fun p => p

/-- The directory model over `fsAB`. -/
def mvAB : MetaViewS :=
  match mkMetaView idDigest fsAB "r" with
  | .ok mv => mv
  | .error _ => default

/-- The alice member of `mvAB`. -/
def aliceM : MemberData := mvAB.members.getD 0 defaultMember

/-- The bob member of `mvAB`. -/
def bobM : MemberData := mvAB.members.getD 1 defaultMember

/-! ## C9: the concrete member scenario -/

/-- C9: a member file named `0001_alice.txt` whose content is the header
lines `Name: Alice` and `E-mail: a@x.com`, a blank line, then the body
`Hello.`, loads to a Member with `num = 1`, `login = "alice"`,
`name = "Alice"`, `email = "a@x.com"` (found case-insensitively under the
key `e-mail`), and `description = "Hello."`. -/
theorem c9_concrete_member_scenario :
    (mkMetaView idDigest fsC9 "r").map (fun mv =>
      mv.members.map (fun m =>
        (m.num, m.login, personName m.toPersonData,
         personEmail m.toPersonData, m.description)))
    = .ok [(1, "alice".toList, some "Alice".toList, some "a@x.com".toList,
            "Hello.".toList)] := by
  rfl

/-! ## C2: the sponsor sentinel -/

/-- C2 counterexample: in `mvAB`, member bob's `sponsor` header equals bob's
own login, yet `Member.sponsor` is `some bob` — not none as the claim
states.  (The code's sentinel is the literal `'<self>'`, not the member's
own login.) -/
theorem c2_counterexample :
    mkMetaView idDigest fsAB "r" = .ok mvAB ∧
    hget "sponsor".toList bobM.headers = some bobM.login ∧
    bobM.login = "bob".toList ∧
    memberSponsor mvAB bobM = some bobM := by
  refine ⟨rfl, by decide, by decide, by decide⟩

/-- C2 (amended): the sponsor is none exactly when the `sponsor` header is
absent, empty, or the literal sentinel `<self>`; otherwise it is the
by-login lookup of the header value (`none` when no such login exists) — in
particular a member whose sponsor header equals its own login resolves to
itself, not to none. -/
theorem c2_sponsor_sentinel (mv : MetaViewS) (m : MemberData) :
    ((hget "sponsor".toList m.headers = none ∨
      hget "sponsor".toList m.headers = some [] ∨
      hget "sponsor".toList m.headers = some "<self>".toList) →
      memberSponsor mv m = none) ∧
    (∀ v, hget "sponsor".toList m.headers = some v → v ≠ [] →
      v ≠ "<self>".toList → memberSponsor mv m = dget v mv.by_login) ∧
    (∀ (H : ByteStr → ByteStr) (fs : FS) (root : String),
      mkMetaView H fs root = .ok mv → m ∈ mv.members →
      (mv.members.map MemberData.login).Nodup →
      hget "sponsor".toList m.headers = some m.login →
      m.login ≠ [] → m.login ≠ "<self>".toList →
      memberSponsor mv m = some m) := by
  refine ⟨?_, ?_, ?_⟩
  · intro h
    unfold memberSponsor
    rcases h with h | h | h <;> rw [h] <;> simp
  · intro v hv hne hself
    unfold memberSponsor
    rw [hv]
    simp [hne, hself]
    intro hveq
    exact absurd hveq hself
  · intro H fs root hmk hmem hnd hv hne hself
    have hlogin := (mkMetaView_inv H fs root mv hmk).2.1
    have h2 : memberSponsor mv m = dget m.login mv.by_login := by
      unfold memberSponsor
      rw [hv]
      simp [hne, hself]
      intro hveq
      exact absurd hveq hself
    rw [h2, hlogin]
    exact dget_fold_self MemberData.login mv.members [] hnd m hmem

/-- C2 witness: the amended sentinel theorem applied to `mvAB`: alice (no
sponsor header) resolves to none; bob (sponsor header `bob`, its own login)
resolves through the by-login index to itself. -/
theorem c2_sponsor_sentinel_witness :
    memberSponsor mvAB aliceM = none ∧
    memberSponsor mvAB bobM = dget "bob".toList mvAB.by_login ∧
    memberSponsor mvAB bobM = some bobM := by
  refine ⟨?_, ?_, ?_⟩
  · exact (c2_sponsor_sentinel mvAB aliceM).1 (Or.inl (by decide))
  · have := (c2_sponsor_sentinel mvAB bobM).2.1 "bob".toList
      (by decide) (by decide) (by decide)
    simpa using this
  · exact (c2_sponsor_sentinel mvAB bobM).2.2 idDigest fsAB "r" rfl
      (by decide) (by decide) (by decide) (by decide) (by decide)

/-! ## C7 and C8: iteration order and index consistency -/

theorem mem_dinsert_cases {κ α : Type} [DecidableEq κ] (k : κ) (v : α) :
    ∀ (d : List (κ × α)) (p : κ × α), p ∈ dinsert k v d →
    p = (k, v) ∨ p ∈ d := by
  intro d
  induction d with
  | nil =>
    intro p hp
    simp [dinsert] at hp
    exact Or.inl (by simp [hp])
  | cons q d ih =>
    obtain ⟨k', v'⟩ := q
    intro p hp
    by_cases h : k' = k
    · subst h
      have hrw : dinsert k' v ((k', v') :: d) = (k', v) :: d := by simp [dinsert]
      rw [hrw] at hp
      rcases List.mem_cons.mp hp with h1 | h2
      · exact Or.inl h1
      · exact Or.inr (List.mem_cons_of_mem _ h2)
    · have hrw : dinsert k v ((k', v') :: d) = (k', v') :: dinsert k v d := by
        simp [dinsert, h]
      rw [hrw] at hp
      rcases List.mem_cons.mp hp with h1 | h2
      · exact Or.inr (by rw [h1]; exact List.mem_cons_self _ _)
      · rcases ih p h2 with h3 | h4
        · exact Or.inl h3
        · exact Or.inr (List.mem_cons_of_mem _ h4)

/-- Every pair of a dict built by an insertion fold with key function `f`
keys its value: `p.1 = f p.2`. -/
theorem fold_key_inv {κ α : Type} [DecidableEq κ] (f : α → κ) :
    ∀ (l : List α) (d₀ : List (κ × α)), (∀ q ∈ d₀, q.1 = f q.2) →
    ∀ p ∈ l.foldl (fun d x => dinsert (f x) x d) d₀, p.1 = f p.2 := by
  intro l
  induction l with
  | nil => intro d₀ h p hp; exact h p hp
  | cons x xs ih =>
    intro d₀ h p hp
    simp only [List.foldl_cons] at hp
    refine ih (dinsert (f x) x d₀) ?_ p hp
    intro q hq
    rcases mem_dinsert_cases (f x) x d₀ q hq with h1 | h2
    · rw [h1]
    · exact h q h2

/-- Extract the `num` field of a member JSON object. -/
def jsonNum : Json → Option Nat
  | .obj (("num", .num n) :: _) => some n
  | _ => none

/-- The full member serialization never fails and its first field is the
member's `num`. -/
theorem memberToJson_num (mv : MetaViewS) (m : MemberData) :
    ∃ j, memberToJson mv m false = .ok j ∧ jsonNum j = some m.num := by
  unfold memberToJson personToJson
  cases hs : memberSponsor mv m <;> simp [pobjNum, pobjLogin, jsonNum]

/-- A successful `mapExcept` relates input and output maps pointwise. -/
theorem mapExcept_map_inv {ε α β γ : Type} (f : α → Except ε β) (g : β → γ)
    (hf : α → γ) (hfg : ∀ a b, f a = .ok b → g b = hf a) :
    ∀ (l : List α) (bs : List β), mapExcept f l = .ok bs →
    bs.map g = l.map hf := by
  intro l
  induction l with
  | nil =>
    intro bs hb
    simp [mapExcept] at hb
    simp [← hb]
  | cons a as ih =>
    intro bs hb
    unfold mapExcept at hb
    cases hfa : f a with
    | error e => rw [hfa] at hb; cases hb
    | ok b =>
      rw [hfa] at hb
      cases hrec : mapExcept f as with
      | error e => rw [hrec] at hb; cases hb
      | ok bs' =>
        rw [hrec] at hb
        simp at hb
        subst hb
        simp [hfg a b hfa, ih bs' hrec]

/-- C7: for every constructed directory model — hence for every order the
underlying directory listing may have — the ordered member iteration
(`iter_members`, which also populates the `members` array of the JSON
snapshot in exactly that order) yields the members in strictly ascending
`num`. -/
theorem c7_member_iteration_order (H : ByteStr → ByteStr) (fs : FS)
    (root : String) (mv : MetaViewS) (h : mkMetaView H fs root = .ok mv) :
    ((iter_members mv).map MemberData.num).Pairwise (· < ·) ∧
    (∀ ms, mapExcept (fun m => memberToJson mv m false) (iter_members mv) = .ok ms →
      ms.map jsonNum = (iter_members mv).map (fun m => some m.num)) := by
  constructor
  · have hby := (mkMetaView_inv H fs root mv h).1
    have hnd : (mv.by_num.map Prod.fst).Nodup := by
      rw [hby]; exact nodup_keys_fold MemberData.num mv.members
    have hperm := sortByKey_perm (Prod.fst (β := MemberData)) mv.by_num
    have hndL : ((sortByKey Prod.fst mv.by_num).map Prod.fst).Nodup :=
      ((hperm.map Prod.fst).nodup_iff).mpr hnd
    have hle := sortByKey_pairwise (Prod.fst (β := MemberData)) mv.by_num
    have hlt := pairwise_lt_of_le_nodup Prod.fst _ hle hndL
    have hkey : ∀ p ∈ sortByKey Prod.fst mv.by_num, p.1 = p.2.num := by
      intro p hp
      have hmem : p ∈ mv.by_num := hperm.mem_iff.mp hp
      rw [hby] at hmem
      exact fold_key_inv MemberData.num mv.members [] (by intro q hq; cases hq) p hmem
    unfold iter_members
    rw [List.map_map]
    have : (sortByKey Prod.fst mv.by_num).map (MemberData.num ∘ Prod.snd)
        = (sortByKey Prod.fst mv.by_num).map Prod.fst := by
      apply List.map_congr_left
      intro p hp
      exact (hkey p hp).symm
    rw [this]
    exact List.pairwise_map.mpr hlt
  · intro ms hms
    exact mapExcept_map_inv _ jsonNum (fun m => some m.num)
      (by
        intro m j hj
        obtain ⟨j', hj', hn⟩ := memberToJson_num mv m
        rw [hj'] at hj
        cases hj
        exact hn) _ ms hms

/-- The member JSON array of `mvAB`, extracted from the serializer. -/
def membersJsonAB : List Json :=
  match mapExcept (fun m => memberToJson mvAB m false) (iter_members mvAB) with
  | .ok ms => ms
  | .error _ => []

/-- C7 witness: on the concrete two-member model (whose directory listing is
in descending order), iteration is strictly ascending in `num` and the JSON
members array lists the same `num`s in the same order. -/
theorem c7_member_iteration_order_witness :
    ((iter_members mvAB).map MemberData.num).Pairwise (· < ·) ∧
    membersJsonAB.map jsonNum = (iter_members mvAB).map (fun m => some m.num) := by
  have h := c7_member_iteration_order idDigest fsAB "r" mvAB rfl
  exact ⟨h.1, h.2 membersJsonAB rfl⟩

/-- C8: for every member constructed into the model, provided the loaded
members collide on neither `num` nor `login` (the data-model invariant the
spec declares), the by-num and by-login indices both return that member. -/
theorem c8_index_consistency (H : ByteStr → ByteStr) (fs : FS)
    (root : String) (mv : MetaViewS) (h : mkMetaView H fs root = .ok mv)
    (hnum : (mv.members.map MemberData.num).Nodup)
    (hlogin : (mv.members.map MemberData.login).Nodup) :
    ∀ m ∈ mv.members,
      dget m.num mv.by_num = some m ∧ dget m.login mv.by_login = some m := by
  intro m hm
  have inv := mkMetaView_inv H fs root mv h
  constructor
  · rw [inv.1]
    exact dget_fold_self MemberData.num mv.members [] hnum m hm
  · rw [inv.2.1]
    exact dget_fold_self MemberData.login mv.members [] hlogin m hm

/-- C8 witness: both lookups return the member itself, for both members of
the concrete model. -/
theorem c8_index_consistency_witness :
    (dget aliceM.num mvAB.by_num = some aliceM ∧
     dget aliceM.login mvAB.by_login = some aliceM) ∧
    (dget bobM.num mvAB.by_num = some bobM ∧
     dget bobM.login mvAB.by_login = some bobM) :=
  ⟨c8_index_consistency idDigest fsAB "r" mvAB rfl (by decide) (by decide)
      aliceM (by decide),
   c8_index_consistency idDigest fsAB "r" mvAB rfl (by decide) (by decide)
      bobM (by decide)⟩

deriving instance DecidableEq for Except

/-! ## C4: the header-section parsing algorithm -/

/-- C4 counterexample: on the header block `k: v \n w: y\n\nB` the parser
keeps the trailing space of the first value (`"v "`, not the trimmed `"v"`)
and turns the whitespace-led line ` w: y` into a new header with key `" w"`
(a `_kv_re` match takes precedence over the continuation rule), rather than
space-joining it onto the previous value as the claim states. -/
theorem c4_counterexample :
    (read_mime "k: v \n w: y\n\nB".toList).map MimeData.headers
      = .ok [("k".toList, "v ".toList), (" w".toList, "y".toList)] ∧
    "v ".toList ≠ "v".toList ∧
    (" w".toList, "y".toList) ≠ ("w".toList, "y".toList) ∧
    (read_mime "k: v \n w: y\n\nB".toList).map MimeData.headers
      ≠ .ok [("k".toList, "v w: y".toList)] := by
  refine ⟨rfl, by decide, by decide, by decide⟩

/-- C4 (amended): the parser reads lines until a blank (all-whitespace) line
or end of stream.  A line containing a colon — whether or not it begins with
whitespace — appends the header `(key, value)` where `key` is the text
before the line's first colon with its trailing whitespace removed (leading
whitespace preserved) and `value` is the text after that colon with its
leading whitespace removed (trailing whitespace preserved), preserving
declaration order and permitting duplicate keys.  A colon-free line
beginning with whitespace is space-joined onto the most recently appended
header's value, with the line's first character dropped.  In particular
`Name: X\n <cont>\n\nbody` parses to the single header `Name = "X <cont>"`
with body `body`. -/
theorem c4_header_parsing (hdrs : List KV) (acc raw : ByteStr)
    (ls : List ByteStr) :
    (∀ pre post, blankLine raw = false → rstripCRLF raw = pre ++ ':' :: post →
      ':' ∉ pre →
      mimeLoop hdrs acc (raw :: ls)
        = mimeLoop (hdrs ++ [(pyRstrip pre, pyLstrip post)]) (acc ++ raw) ls) ∧
    (∀ k v, blankLine raw = false → ':' ∉ rstripCRLF raw →
      headIsSpace (rstripCRLF raw) = true → hdrs.getLast? = some (k, v) →
      mimeLoop hdrs acc (raw :: ls)
        = mimeLoop (hdrs.dropLast ++ [(k, v ++ ' ' :: (rstripCRLF raw).drop 1)])
            (acc ++ raw) ls) ∧
    (blankLine raw = true →
      mimeLoop hdrs acc (raw :: ls) = .ok (hdrs, acc ++ raw, ls)) ∧
    read_mime "Name: X\n <cont>\n\nbody".toList
      = .ok ⟨[("Name".toList, "X <cont>".toList)], "body".toList,
          "Name: X\n <cont>\n\nbody".toList⟩ := by
  refine ⟨?_, ?_, ?_, rfl⟩
  · intro pre post hb hsplit hpre
    have hkv : kvMatch (rstripCRLF raw) = some (pyRstrip pre, pyLstrip post) := by
      unfold kvMatch
      rw [hsplit, splitColon_of_not_mem post pre hpre]
      rfl
    simp only [mimeLoop]
    rw [if_neg (by simp [hb]), hkv]
  · intro k v hb hcolon hs hlast
    have hkv : kvMatch (rstripCRLF raw) = none := by
      unfold kvMatch
      rw [splitColon_none _ hcolon]
      rfl
    simp only [mimeLoop]
    rw [if_neg (by simp [hb]), hkv, if_pos hs, hlast]
  · intro hb
    simp only [mimeLoop]
    rw [if_pos hb]

/-- C4 witness: the three step rules applied on concrete lines: a kv line
with surrounding whitespace in key and value positions, a colon-free
continuation line, and a blank terminator. -/
theorem c4_header_parsing_witness :
    mimeLoop [] [] ("a b : c \n".toList :: ["\n".toList])
      = mimeLoop [("a b".toList, "c ".toList)] "a b : c \n".toList ["\n".toList] ∧
    mimeLoop [("k".toList, "v".toList)] [] (" cont\n".toList :: ["\n".toList])
      = mimeLoop [("k".toList, "v cont".toList)] " cont\n".toList ["\n".toList] ∧
    mimeLoop [] [] ("\n".toList :: []) = .ok ([], "\n".toList, []) := by
  refine ⟨?_, ?_, ?_⟩
  · have h := (c4_header_parsing [] [] "a b : c \n".toList ["\n".toList]).1
      "a b ".toList " c ".toList (by decide) (by decide) (by decide)
    simpa using h
  · have h := (c4_header_parsing [("k".toList, "v".toList)] [] " cont\n".toList
      ["\n".toList]).2.1 "k".toList "v".toList
      (by decide) (by decide) (by decide) (by decide)
    simpa using h
  · exact (c4_header_parsing [] [] "\n".toList []).2.2.1 (by decide)

/-! ## C5: the malformed-record error -/

/-- `pat` occurs at the start of `s`. -/
def leadingSeq : ByteStr → ByteStr → Bool
  | [], _ => true
  | _ :: _, [] => false
  | a :: as, b :: bs => a = b && leadingSeq as bs

/-- `pat` occurs somewhere inside `s` (Python `pat in s`). -/
def containsSeq (pat : ByteStr) : ByteStr → Bool
  | [] => pat.isEmpty
  | c :: rest => leadingSeq pat (c :: rest) || containsSeq pat rest

/-- C5 counterexample: parsing a record whose first header line is the
malformed `whoknows` fails with the constant message `Invalid mime data`,
which does not contain the violating content (and the error value carries no
file name at all). -/
theorem c5_counterexample :
    read_mime "whoknows\n\nbody".toList = .error (.invalid invalidMimeMsg) ∧
    invalidMimeMsg = "Invalid mime data".toList ∧
    containsSeq "whoknows".toList invalidMimeMsg = false := by
  refine ⟨rfl, rfl, by decide⟩

/-- If the sequential member loop succeeds, every `_member_re`-matching file
of the listing it processed was opened and parsed successfully. -/
theorem readMembersLoop_ok_parses (H : ByteStr → ByteStr) (fs : FS)
    (mp : String) :
    ∀ (files : List String) (acc mems : List MemberData),
    readMembersLoop H fs mp files acc = .ok mems →
    ∀ f ∈ files, ∀ num login, parseMemberName f = some (num, login) →
    ∀ B, fs.readFile (pyjoin mp f) = .ok B →
    ∃ mime, read_mime B = .ok mime := by
  intro files
  induction files with
  | nil => intro acc mems _ f hf; cases hf
  | cons g gs ih =>
    intro acc mems hloop f hf num login hparse B hB
    unfold readMembersLoop at hloop
    rcases List.mem_cons.mp hf with hfg | hfgs
    · subst hfg
      cases hrm : read_mime B with
      | ok mime => exact ⟨mime, rfl⟩
      | error e =>
        simp only [hparse, hB] at hloop
        have hmk : mkPersonData H fs mp f B = .error e := by
          unfold mkPersonData
          rw [hrm]
        simp only [hmk] at hloop
        cases hloop
    · cases hparse2 : parseMemberName g with
      | none =>
        simp only [hparse2] at hloop
        exact ih acc mems hloop f hfgs num login hparse B hB
      | some p =>
        obtain ⟨num2, login2⟩ := p
        simp only [hparse2] at hloop
        cases hB2 : fs.readFile (pyjoin mp g) with
        | error e => simp only [hB2] at hloop; cases hloop
        | ok B2 =>
          simp only [hB2] at hloop
          cases hmk2 : mkPersonData H fs mp g B2 with
          | error e => simp only [hmk2] at hloop; cases hloop
          | ok pd2 =>
            simp only [hmk2] at hloop
            exact ih _ mems hloop f hfgs num login hparse B hB

/-- C5 (amended): a header-section line that is non-blank, contains no colon
and does not begin with whitespace makes the parse fail — but with the
constant `ValueError` message `Invalid mime data`, which names neither the
violating content nor the offending file.  The error does abort the whole
load: whenever member loading succeeds, every matching member file parsed
without error. -/
theorem c5_malformed_record (hdrs : List KV) (acc raw : ByteStr)
    (ls : List ByteStr) :
    (blankLine raw = false → ':' ∉ rstripCRLF raw →
      headIsSpace (rstripCRLF raw) = false →
      mimeLoop hdrs acc (raw :: ls) = .error (.invalid invalidMimeMsg)) ∧
    invalidMimeMsg = "Invalid mime data".toList ∧
    (∀ (H : ByteStr → ByteStr) (fs : FS) (mp : String)
       (files : List String) (mems : List MemberData),
      fs.listdir mp = .ok files → read_members H fs mp = .ok mems →
      ∀ f ∈ files, ∀ num login, parseMemberName f = some (num, login) →
      ∀ B, fs.readFile (pyjoin mp f) = .ok B →
      ∃ mime, read_mime B = .ok mime) := by
  refine ⟨?_, rfl, ?_⟩
  · intro hb hcolon hs
    have hkv : kvMatch (rstripCRLF raw) = none := by
      unfold kvMatch
      rw [splitColon_none _ hcolon]
      rfl
    simp only [mimeLoop]
    rw [if_neg (by simp [hb]), hkv, if_neg (by simp [hs])]
  · intro H fs mp files mems hls hrm f hf num login hparse B hB
    unfold read_members at hrm
    simp only [hls] at hrm
    cases hloop : readMembersLoop H fs mp files [] with
    | error e => simp only [hloop] at hrm; cases hrm
    | ok mems0 =>
      exact readMembersLoop_ok_parses H fs mp files [] mems0 hloop
        f hf num login hparse B hB

/-- The member list loaded from the one-member tree. -/
def c9mems : List MemberData :=
  match read_members idDigest fsC9 "r/members" with
  | .ok l => l
  | .error _ => []

/-- C5 witness: the malformed-line rule applied to the concrete line
`whoknows`, and the abort rule applied to the concrete one-member tree. -/
theorem c5_malformed_record_witness :
    mimeLoop [] [] ("whoknows\n".toList :: ["\n".toList])
      = .error (.invalid invalidMimeMsg) ∧
    (∃ mime, read_mime aliceBytes = .ok mime) := by
  constructor
  · exact (c5_malformed_record [] [] "whoknows\n".toList ["\n".toList]).1
      (by decide) (by decide) (by decide)
  · exact (c5_malformed_record [] [] [] []).2.2 idDigest fsC9 "r/members"
      ["0001_alice.txt"] c9mems rfl rfl "0001_alice.txt" (by decide)
      1 "alice".toList (by decide) aliceBytes rfl

/-! ## Project fixture -/

/-- An inline person file that matches no member's content. -/
def carolBytes : ByteStr := "Name: Carol\n\nyo".toList

/-- Fixture: one member (alice) and three projects — `pa` has no
`PROJECT_LEAD`; `pb`'s `PROJECT_LEAD` is a symlink whose canonical target
(`alice_copy.txt`) is not in the by-path index but holds a byte-identical
copy of alice's file; `pc`'s `PROJECT_LEAD` is a plain file matching no
member, and its `stewardship` directory holds one entry that resolves by
checksum (`s1`) and one that resolves to nothing (`s2`). -/
def fsPROJ : FS where
  listdir := fun p =>
    if p = "r/members" then .ok ["0001_alice.txt"]
    else if p = "r/projects" then .ok ["pa", "pb", "pc"]
    else if p = "r/projects/pc/stewardship" then .ok ["s1", "s2"]
    else .error .enoent
  readFile := fun p =>
    if p = "r/members/0001_alice.txt" then .ok aliceBytes
    else if p = "r/members/alice_copy.txt" then .ok aliceBytes
    else if p = "r/projects/pc/PROJECT_LEAD" then .ok carolBytes
    else if p = "r/projects/pc/stewardship/s1" then .ok aliceBytes
    else .error .enoent
  readlink := fun p =>
    if p = "r/projects/pb/PROJECT_LEAD" then some "../../members/alice_copy.txt"
    else none
  pathExists := fun p =>
    p = "r/projects/pb/PROJECT_LEAD" || p = "r/projects/pc/PROJECT_LEAD"
  isdir := fun p =>
    p = "r/projects/pa" || p = "r/projects/pb" || p = "r/projects/pc"
  realnorm := fun p =>
    if p = "r/projects/pb/PROJECT_LEAD" then "r/members/alice_copy.txt"
    else if p = "r/projects/pb/../../members/alice_copy.txt" then
      "r/members/alice_copy.txt"
    else p

/-- The directory model over `fsPROJ`. -/
def mvPROJ : MetaViewS :=
  match mkMetaView idDigest fsPROJ "r" with
  | .ok mv => mv
  | .error _ => default

/-- The alice member of `mvPROJ`. -/
def alicePR : MemberData := mvPROJ.members.getD 0 defaultMember

/-! ## C3: checksum content-addressing -/

/-- C3: the record parser's running hash is fed exactly the file's bytes, so
the checksum is the digest of the entire content; byte-identical files get
identical checksums; a constructed Person's stored checksum is the digest of
its file's bytes; and a reference whose link-path tier fails resolves through
the by-checksum index — in a constructed model (with content-distinct
members) to the member parsed from the byte-identical file. -/
theorem c3_checksum_content_addressing (H : ByteStr → ByteStr) :
    (∀ s m, read_mime s = .ok m → m.hashInput = s) ∧
    (∀ s1 s2 m1 m2, read_mime s1 = .ok m1 → read_mime s2 = .ok m2 →
      s1 = s2 → H m1.hashInput = H m2.hashInput) ∧
    (∀ fs mp pa B pd, mkPersonData H fs mp pa B = .ok pd →
      pd.checksum = H B) ∧
    (∀ fs mv path B m,
      (∀ t, fs.readlink path = some t →
        dget (fs.realnorm (pyjoin (dirname path) t)) mv.by_path = none) →
      fs.readFile (fs.realnorm path) = .ok B →
      dget (H B) mv.by_checksum = some m →
      locate_linked_member H fs mv path = some m) ∧
    (∀ fs root mv m, mkMetaView H fs root = .ok mv → m ∈ mv.members →
      (mv.members.map (fun m => m.checksum)).Nodup →
      dget m.checksum mv.by_checksum = some m) := by
  refine ⟨read_mime_hashInput, ?_, ?_, ?_, ?_⟩
  · intro s1 s2 m1 m2 h1 h2 hs
    rw [read_mime_hashInput s1 m1 h1, read_mime_hashInput s2 m2 h2, hs]
  · intro fs mp pa B pd hmk
    unfold mkPersonData at hmk
    cases hrm : read_mime B with
    | error e => rw [hrm] at hmk; cases hmk
    | ok mm =>
      rw [hrm] at hmk
      simp at hmk
      rw [← hmk]
      simp [read_mime_hashInput B mm hrm]
  · intro fs mv path B m hlink hrf hdget
    unfold locate_linked_member
    cases hrl : fs.readlink path with
    | none =>
      simp only [hrl, hrf, hdget]
    | some t =>
      simp only [hrl, hlink t hrl, hrf, hdget]
  · intro fs root mv m hmk hm hnd
    rw [(mkMetaView_inv H fs root mv hmk).2.2.1]
    exact dget_fold_self (fun m : MemberData => m.checksum) mv.members [] hnd m hm

/-- The record parsed from alice's member file. -/
def c3mime : MimeData :=
  match read_mime aliceBytes with
  | .ok m => m
  | .error _ => ⟨[], [], []⟩

/-- C3 witness: the hash input of alice's record is the whole file; the
symlink `pb/PROJECT_LEAD`, whose canonical target is not indexed by path,
resolves through the checksum tier to alice, parsed from the byte-identical
copy; alice's stored checksum is the digest of her file; and the by-checksum
index returns alice for her own checksum. -/
theorem c3_checksum_content_addressing_witness :
    c3mime.hashInput = aliceBytes ∧
    alicePR.toPersonData.checksum = idDigest aliceBytes ∧
    locate_linked_member idDigest fsPROJ mvPROJ "r/projects/pb/PROJECT_LEAD"
      = some alicePR ∧
    dget alicePR.checksum mvPROJ.by_checksum = some alicePR := by
  have h := c3_checksum_content_addressing idDigest
  refine ⟨?_, ?_, ?_, ?_⟩
  · exact h.1 aliceBytes c3mime rfl
  · exact h.2.2.1 fsPROJ "r/members" "0001_alice.txt" aliceBytes
      alicePR.toPersonData rfl
  · refine h.2.2.2.1 fsPROJ mvPROJ "r/projects/pb/PROJECT_LEAD" aliceBytes
      alicePR ?_ rfl (by decide)
    intro t ht
    have hrl : fsPROJ.readlink "r/projects/pb/PROJECT_LEAD"
        = some "../../members/alice_copy.txt" := rfl
    rw [hrl] at ht
    injection ht with ht2
    subst ht2
    decide
  · exact h.2.2.2.2 fsPROJ "r" mvPROJ alicePR rfl (by decide) (by decide)

/-! ## C6: optional-file error policy -/

/-- Fixture: every project file read fails with `EACCES` (permission
denied). -/
def fsDENY : FS where
  listdir := fun _ => .error .eacces
  readFile := fun _ => .error .eacces
  readlink := fun _ => none
  pathExists := fun _ => false
  isdir := fun _ => false
  realnorm := fun p => p

/-- C6 counterexample: with every README candidate and `EXTENSION_STATUS`
failing with `EACCES` (permission denied, not "not found"), `readme` is
silently absent and `extension_status` is silently `none` — nothing
propagates: the claim's "any other filesystem error propagates as fatal"
fails for these optional files. -/
theorem c6_counterexample :
    fsDENY.readFile "r/projects/p/README.rst" = .error .eacces ∧
    FileErr.eacces ≠ FileErr.enoent ∧
    projReadme fsDENY mvAB "p" = none ∧
    projExtStatus fsDENY mvAB "p" = .ok none := by
  refine ⟨rfl, by decide, rfl, rfl⟩

/-- C6 (amended): a missing optional file is never an error, but the error
policy differs per file.  For `META`, "not found" yields the empty header
set and every other filesystem error propagates as fatal.  For the README
candidates and `EXTENSION_STATUS`, every filesystem error — permission
denied included — is swallowed: a failing README candidate is skipped (a
later readable candidate still wins) and a failing `EXTENSION_STATUS` reads
as absent. -/
theorem c6_optional_file_errors (fs : FS) (mv : MetaViewS) (sname : String) :
    (fs.readFile (pyjoin (projPath mv sname) "META") = .error .enoent →
      projMeta fs mv sname = .ok []) ∧
    (∀ e, fs.readFile (pyjoin (projPath mv sname) "META") = .error e →
      e ≠ .enoent → projMeta fs mv sname = .error (.io e)) ∧
    (∀ e1 e2 e3,
      fs.readFile (pyjoin (projPath mv sname) "README.rst") = .error e1 →
      fs.readFile (pyjoin (projPath mv sname) "README.md") = .error e2 →
      fs.readFile (pyjoin (projPath mv sname) "README") = .error e3 →
      projReadme fs mv sname = none) ∧
    (∀ e B,
      fs.readFile (pyjoin (projPath mv sname) "README.rst") = .error e →
      fs.readFile (pyjoin (projPath mv sname) "README.md") = .ok B →
      projReadme fs mv sname = some (pyRstrip B)) ∧
    (∀ e, fs.readFile (pyjoin (projPath mv sname) "EXTENSION_STATUS") = .error e →
      projExtStatus fs mv sname = .ok none) := by
  refine ⟨?_, ?_, ?_, ?_, ?_⟩
  · intro h
    unfold projMeta
    rw [h]
  · intro e h hne
    unfold projMeta
    rw [h]
    cases e with
    | enoent => exact absurd rfl hne
    | eacces => rfl
    | eio => rfl
  · intro e1 e2 e3 h1 h2 h3
    unfold projReadme
    simp only [List.findSome?_cons, h1, h2, h3, List.findSome?_nil]
  · intro e B h1 h2
    unfold projReadme
    simp only [List.findSome?_cons, h1, h2]
  · intro e h
    unfold projExtStatus
    rw [h]

/-- C6 witness: applied to the all-denied fixture and to `fsPROJ`'s `pa`
project (whose META is absent). -/
theorem c6_optional_file_errors_witness :
    projMeta fsPROJ mvPROJ "pa" = .ok [] ∧
    projMeta fsDENY mvAB "p" = .error (.io .eacces) ∧
    projReadme fsDENY mvAB "p" = none ∧
    projExtStatus fsDENY mvAB "p" = .ok none := by
  refine ⟨?_, ?_, ?_, ?_⟩
  · exact (c6_optional_file_errors fsPROJ mvPROJ "pa").1 rfl
  · exact (c6_optional_file_errors fsDENY mvAB "p").2.1 .eacces rfl (by decide)
  · exact (c6_optional_file_errors fsDENY mvAB "p").2.2.1 .eacces .eacces .eacces
      rfl rfl rfl
  · exact (c6_optional_file_errors fsDENY mvAB "p").2.2.2.2 .eacces rfl

/-! ## C1: lead/steward resolution asymmetry -/

/-- Dropping an element the function maps to `none` does not change a
`filterMap`. -/
theorem filterMap_erase_of_none {α β : Type} [DecidableEq α]
    (h : α → Option β) (a : α) (ha : h a = none) :
    ∀ l : List α, l.filterMap h = (l.erase a).filterMap h := by
  intro l
  induction l with
  | nil => simp
  | cons x xs ih =>
    by_cases hx : x = a
    · subst hx
      rw [List.erase_cons_head]
      simp [List.filterMap_cons, ha]
    · rw [List.erase_cons_tail (by simp [hx])]
      simp only [List.filterMap_cons]
      cases h x with
      | none => exact ih
      | some b => rw [ih]

/-- C1: the resolution asymmetry between `project_lead` and `stewards`.
With `p` the project's `PROJECT_LEAD` path: (a) when no such file exists the
lead is none; (b) when `p` is a symlink whose canonical target is not in the
by-path index but the file's content digest is in the by-checksum index, the
lead is that member; (c) when `p` exists, is not a link, the checksum tier
finds nothing and the file itself reads and parses, the lead is an inline
plain Person — not none; whereas (d) a stewardship entry that resolves to
nothing is silently dropped: the steward tuple is unchanged when the entry is
removed from the listing, and every steward comes from an entry the resolver
matched. -/
theorem c1_lead_steward_asymmetry (H : ByteStr → ByteStr) (fs : FS)
    (mv : MetaViewS) (sname : String) :
    (fs.pathExists (pyjoin (projPath mv sname) "PROJECT_LEAD") = false →
      projLead H fs mv sname = .ok none) ∧
    (∀ t B m,
      fs.pathExists (pyjoin (projPath mv sname) "PROJECT_LEAD") = true →
      fs.readlink (pyjoin (projPath mv sname) "PROJECT_LEAD") = some t →
      dget (fs.realnorm (pyjoin
        (dirname (pyjoin (projPath mv sname) "PROJECT_LEAD")) t))
        mv.by_path = none →
      fs.readFile (fs.realnorm (pyjoin (projPath mv sname) "PROJECT_LEAD"))
        = .ok B →
      dget (H B) mv.by_checksum = some m →
      projLead H fs mv sname = .ok (some (.member m))) ∧
    (∀ B mime,
      fs.pathExists (pyjoin (projPath mv sname) "PROJECT_LEAD") = true →
      fs.readlink (pyjoin (projPath mv sname) "PROJECT_LEAD") = none →
      (∀ B', fs.readFile (fs.realnorm (pyjoin (projPath mv sname)
          "PROJECT_LEAD")) = .ok B' → dget (H B') mv.by_checksum = none) →
      fs.readFile (pyjoin (projPath mv sname) "PROJECT_LEAD") = .ok B →
      read_mime B = .ok mime →
      ∃ pd, projLead H fs mv sname = .ok (some (.plain pd))) ∧
    (∀ files f,
      fs.listdir (pyjoin (projPath mv sname) "stewardship") = .ok files →
      f ∈ files →
      locate_linked_member H fs mv
        (pyjoin (pyjoin (projPath mv sname) "stewardship") f) = none →
      projStewards H fs mv sname
        = (files.erase f).filterMap (fun g => locate_linked_member H fs mv
            (pyjoin (pyjoin (projPath mv sname) "stewardship") g)) ∧
      ∀ x ∈ projStewards H fs mv sname, ∃ g ∈ files,
        locate_linked_member H fs mv
          (pyjoin (pyjoin (projPath mv sname) "stewardship") g) = some x) := by
  refine ⟨?_, ?_, ?_, ?_⟩
  · intro hex
    unfold projLead
    rw [if_neg (by simp [hex])]
  · intro t B m hex hrl hdget hrf hck
    unfold projLead
    rw [if_pos hex]
    have hloc : locate_linked_member H fs mv
        (pyjoin (projPath mv sname) "PROJECT_LEAD") = some m := by
      unfold locate_linked_member
      simp only [hrl, hdget, hrf, hck]
    simp only [hloc]
  · intro B mime hex hrl hcfail hrf hmime
    unfold projLead
    rw [if_pos hex]
    have hloc : locate_linked_member H fs mv
        (pyjoin (projPath mv sname) "PROJECT_LEAD") = none := by
      unfold locate_linked_member
      simp only [hrl]
      cases hrf2 : fs.readFile (fs.realnorm (pyjoin (projPath mv sname)
          "PROJECT_LEAD")) with
      | error e => simp
      | ok B2 => simp [hcfail B2 hrf2]
    simp only [hloc]
    rw [hrf]
    have hmk : mkPersonData H fs (memberPathOf mv)
        (pyjoin (projPath mv sname) "PROJECT_LEAD") B
        = .ok ⟨fs.realnorm (pyjoin (memberPathOf mv)
            (pyjoin (projPath mv sname) "PROJECT_LEAD")),
          mime.headers, H mime.hashInput, pyRstrip mime.payload⟩ := by
      unfold mkPersonData
      rw [hmime]
    exact ⟨⟨fs.realnorm (pyjoin (memberPathOf mv)
        (pyjoin (projPath mv sname) "PROJECT_LEAD")),
      mime.headers, H mime.hashInput, pyRstrip mime.payload⟩,
      by simp only [hmk]⟩
  · intro files f hls hf hnone
    constructor
    · unfold projStewards
      simp only [hls]
      exact filterMap_erase_of_none _ f hnone files
    · intro x hx
      unfold projStewards at hx
      simp only [hls] at hx
      rcases List.mem_filterMap.mp hx with ⟨g, hg, hloc⟩
      exact ⟨g, hg, hloc⟩

/-- The record parsed from the unmatched `pc/PROJECT_LEAD` file. -/
def carolMime : MimeData :=
  match read_mime carolBytes with
  | .ok m => m
  | .error _ => ⟨[], [], []⟩

/-- C1 witness, on `fsPROJ`: `pa` (no lead file) resolves to none; `pb`
(symlink to an unindexed byte-identical copy) resolves to the member alice;
`pc` (plain unmatched file) degrades to an inline Person; and the
unresolvable steward entry `s2` of `pc` is dropped without error. -/
theorem c1_lead_steward_asymmetry_witness :
    projLead idDigest fsPROJ mvPROJ "pa" = .ok none ∧
    projLead idDigest fsPROJ mvPROJ "pb" = .ok (some (.member alicePR)) ∧
    (∃ pd, projLead idDigest fsPROJ mvPROJ "pc" = .ok (some (.plain pd))) ∧
    projStewards idDigest fsPROJ mvPROJ "pc"
      = (["s1", "s2"].erase "s2").filterMap (fun g =>
          locate_linked_member idDigest fsPROJ mvPROJ
            (pyjoin (pyjoin (projPath mvPROJ "pc") "stewardship") g)) := by
  refine ⟨?_, ?_, ?_, ?_⟩
  · exact (c1_lead_steward_asymmetry idDigest fsPROJ mvPROJ "pa").1 rfl
  · exact (c1_lead_steward_asymmetry idDigest fsPROJ mvPROJ "pb").2.1
      "../../members/alice_copy.txt" aliceBytes alicePR rfl rfl (by decide)
      rfl (by decide)
  · refine (c1_lead_steward_asymmetry idDigest fsPROJ mvPROJ "pc").2.2.1
      carolBytes carolMime rfl rfl ?_ rfl rfl
    intro B' h
    have h2 : Except.ok (ε := FileErr) carolBytes = .ok B' := h
    injection h2 with hB
    subst hB
    decide
  · exact ((c1_lead_steward_asymmetry idDigest fsPROJ mvPROJ "pc").2.2.2
      ["s1", "s2"] "s2" rfl (by decide) (by decide)).1

/-! ## C10: an inline-Person lead breaks the JSON snapshot -/

theorem mapExcept_ok_mem {ε α β : Type} (f : α → Except ε β) :
    ∀ (l : List α) (bs : List β), mapExcept f l = .ok bs →
    ∀ a ∈ l, ∃ b, f a = .ok b := by
  intro l
  induction l with
  | nil => intro bs _ a ha; cases ha
  | cons x xs ih =>
    intro bs hb a ha
    unfold mapExcept at hb
    cases hfx : f x with
    | error e => rw [hfx] at hb; cases hb
    | ok b =>
      rw [hfx] at hb
      cases hrec : mapExcept f xs with
      | error e => rw [hrec] at hb; cases hb
      | ok bs' =>
        rcases List.mem_cons.mp ha with hax | haxs
        · exact ⟨b, hax ▸ hfx⟩
        · exact ih bs' hrec a haxs

/-- C10: `Person.to_json` reads `self.num` first and ignores the `compact`
flag, so serializing a plain (non-Member) Person always raises
`AttributeError`; hence a project whose lead degraded to an inline Person
fails to serialize, and a successful full snapshot implies every project
serialized — the snapshot is only total when no lead is an inline Person. -/
theorem c10_inline_lead_breaks_snapshot :
    (∀ (mv : MetaViewS) (pd : PersonData) (compact : Bool),
      pobjToJson mv (.plain pd) compact = .error .attributeError) ∧
    (∀ (H : ByteStr → ByteStr) (fs : FS) (mv : MetaViewS) (sname : String)
       (pd : PersonData) (hs : List KV) (eo : Option ExtStatus),
      projMeta fs mv sname = .ok hs →
      projExtStatus fs mv sname = .ok eo →
      projLead H fs mv sname = .ok (some (.plain pd)) →
      projToJson H fs mv sname = .error .attributeError) ∧
    (∀ (H : ByteStr → ByteStr) (fs : FS) (mv : MetaViewS) (j : Json),
      metaViewToJson H fs mv = .ok j →
      ∀ sname ∈ iter_projects mv, ∃ pj, projToJson H fs mv sname = .ok pj) := by
  refine ⟨?_, ?_, ?_⟩
  · intro mv pd compact
    rfl
  · intro H fs mv sname pd hs eo hmeta hext hlead
    unfold projToJson
    simp only [hmeta, hext, hlead]
    rfl
  · intro H fs mv j hj sname hs
    unfold metaViewToJson at hj
    cases h1 : mapExcept (fun m => memberToJson mv m false) (iter_members mv) with
    | error e => rw [h1] at hj; cases hj
    | ok members =>
      rw [h1] at hj
      cases h2 : mapExcept (fun s => projToJson H fs mv s) (iter_projects mv) with
      | error e => rw [h2] at hj; cases hj
      | ok projects =>
        exact mapExcept_ok_mem _ (iter_projects mv) projects h2 sname hs

/-- A default plain person, used only to extract concrete values. -/
def defaultPerson : PersonData := ⟨"", [], [], []⟩

/-- The inline Person that `pc`'s lead degrades to. -/
def carolPD : PersonData :=
  match projLead idDigest fsPROJ mvPROJ "pc" with
  | .ok (some (.plain pd)) => pd
  | _ => defaultPerson

/-- C10 witness: on `fsPROJ`, serializing the inline lead raises the
attribute error, project `pc` fails to serialize, and so does the whole
snapshot. -/
theorem c10_inline_lead_breaks_snapshot_witness :
    pobjToJson mvPROJ (.plain carolPD) true = .error .attributeError ∧
    projToJson idDigest fsPROJ mvPROJ "pc" = .error .attributeError ∧
    metaViewToJson idDigest fsPROJ mvPROJ = .error .attributeError := by
  refine ⟨?_, ?_, ?_⟩
  · exact c10_inline_lead_breaks_snapshot.1 mvPROJ carolPD true
  · exact c10_inline_lead_breaks_snapshot.2.1 idDigest fsPROJ mvPROJ "pc"
      carolPD [] none rfl rfl rfl
  · rfl
